import Mathlib

/-!
Verification of the character/leveling/combat core of the rpg-cli repository
(src/character/mod.rs, src/character/class.rs, src/character/enemy.rs),
shallowly embedded in Lean.

Machine integers (Rust i32) are modelled as unbounded Int: none of the
properties below concerns wrap-around behaviour.  All randomness is injected:
the randomizer's stat_increase results are passed in as explicit draw values,
the enemy-level and status-damage jitters as explicit functions, mirroring the
Randomizer trait boundary of the source.
-/

namespace Rpg

/-- StatusEffect from src/character/mod.rs: Burn or Poison. -/
inductive StatusEffect where
  | Burn
  | Poison
deriving DecidableEq, Repr

/-- Category from src/character/class.rs. -/
inductive Category where
  | Player
  | Common
  | Rare
  | Legendary
deriving DecidableEq, Repr

/-- Stat from src/character/class.rs: a base value (field 0) and a per-level
increase (field 1). -/
structure Stat where
  base : Int
  increase : Int
deriving DecidableEq, Repr

/-- Stat::at from src/character/class.rs: base + (level - 1) * increase. -/
def Stat.atLevel (s : Stat) (level : Int) : Int :=
  s.base + (level - 1) * s.increase

/-- Class from src/character/class.rs.  The Rust field named class is a
reserved word in Lean, so the Character field below is called cls. -/
structure Class where
  name : String
  hp : Stat
  mp : Option Stat
  strength : Stat
  speed : Stat
  category : Category
  inflicts : Option (StatusEffect × Nat)
deriving DecidableEq, Repr

/-- Class::is_magic from src/character/class.rs: the mp curve is present. -/
def Class.is_magic (c : Class) : Bool :=
  c.mp.isSome

/-- The Dead signal type from src/character/mod.rs. -/
inductive Dead where
  | mk
deriving DecidableEq, Repr

/-- The ClassNotFound error type from src/character/mod.rs. -/
inductive ClassNotFound where
  | mk
deriving DecidableEq, Repr

/-- Character from src/character/mod.rs.  Equipment is opaque to this module
beyond its strength() contribution (spec section 1), so the sword and shield
slots are modelled by their strength values. -/
structure Character where
  cls : Class
  sword : Option Int
  shield : Option Int
  level : Int
  xp : Int
  max_hp : Int
  current_hp : Int
  max_mp : Int
  current_mp : Int
  strength : Int
  speed : Int
  status_effect : Option StatusEffect
deriving DecidableEq, Repr

/-- One batch of results of the randomizer's stat_increase calls, as consumed
by a single Character::increase_level call (strength, speed, hp, mp draws, in
the order the source requests them). -/
structure Draws where
  strength : Int
  speed : Int
  hp : Int
  mp : Int
deriving DecidableEq, Repr

/-- Modelled from the spec: the randomness service's stat_increase jitters a
per-level gain around its nominal value (spec section 6); its implementation
is outside src/, and the jitter never subtracts below zero. -/
def Draws.Nonneg (d : Draws) : Prop :=
  0 ≤ d.strength ∧ 0 ≤ d.speed ∧ 0 ≤ d.hp ∧ 0 ≤ d.mp

instance (d : Draws) : Decidable d.Nonneg := by
  unfold Draws.Nonneg; infer_instance

/-- A stream of draw batches, one per increase_level invocation, modelling the
fresh randomness of successive randomizer calls. -/
def OracleNonneg (ds : Nat → Draws) : Prop :=
  ∀ k, (ds k).Nonneg

/-- Character::increase_level from src/character/mod.rs lines 133-153, with
the randomized stat increases injected as d.  The mp draw is only consumed
when the class has an mp curve (map_or(0, ..) in the source). -/
def increase_level (d : Draws) (c : Character) : Character :=
  let strength := c.strength + d.strength
  let speed := c.speed + d.speed
  let previous_damage := c.max_hp - c.current_hp
  let max_hp := c.max_hp + d.hp
  let current_hp := max_hp - previous_damage
  let previous_used_mp := c.max_mp - c.current_mp
  let max_mp := c.max_mp + (match c.cls.mp with | some _ => d.mp | none => 0)
  let current_mp := max_mp - previous_used_mp
  { c with
    level := c.level + 1
    strength := strength
    speed := speed
    max_hp := max_hp
    current_hp := current_hp
    max_mp := max_mp
    current_mp := current_mp }

/-- C1: for every character and every result of the injected randomized stat
increases, increase_level preserves the absolute damage deficit
max_hp - current_hp and the spent-MP deficit max_mp - current_mp (a class
without an mp curve contributing a zero mp increase). -/
theorem increase_level_preserves_deficits (d : Draws) (c : Character) :
    (increase_level d c).max_hp - (increase_level d c).current_hp
      = c.max_hp - c.current_hp
    ∧ (increase_level d c).max_mp - (increase_level d c).current_mp
      = c.max_mp - c.current_mp := by
  constructor <;> simp [increase_level] <;> ring

/-- Fuel-indexed linear search for the integer square root: the largest acc
with acc * acc ≤ n, starting from a given acc and spending one fuel unit per
increment. -/
def isqrt_go (n : Nat) : Nat → Nat → Nat
  | 0, acc => acc
  | fuel + 1, acc => if (acc + 1) * (acc + 1) ≤ n then isqrt_go n fuel (acc + 1) else acc

/-- Integer square root: the unique r with r * r ≤ n < (r + 1) * (r + 1),
established in isqrt_spec. -/
def isqrt (n : Nat) : Nat := isqrt_go n n 0

theorem isqrt_go_spec (n : Nat) :
    ∀ fuel acc, acc * acc ≤ n → n < (acc + fuel + 1) * (acc + fuel + 1) →
      isqrt_go n fuel acc * isqrt_go n fuel acc ≤ n
        ∧ n < (isqrt_go n fuel acc + 1) * (isqrt_go n fuel acc + 1) := by
  intro fuel
  induction fuel with
  | zero =>
    intro acc h1 h2
    simpa [isqrt_go] using ⟨h1, by simpa using h2⟩
  | succ fuel ih =>
    intro acc h1 h2
    by_cases h : (acc + 1) * (acc + 1) ≤ n
    · have := ih (acc + 1) h (by
        have : acc + 1 + fuel + 1 = acc + (fuel + 1) + 1 := by ring
        rw [this]; exact h2)
      simpa [isqrt_go, h] using this
    · simp only [isqrt_go, if_neg h]
      exact ⟨h1, Nat.lt_of_not_le h⟩

theorem isqrt_spec (n : Nat) :
    isqrt n * isqrt n ≤ n ∧ n < (isqrt n + 1) * (isqrt n + 1) := by
  refine isqrt_go_spec n n 0 (by simp) ?_
  have h1 : n < n + 1 := Nat.lt_succ_self n
  have h2 : n + 1 ≤ (n + 1) * (n + 1) := Nat.le_mul_of_pos_left _ (Nat.succ_pos n)
  calc n < n + 1 := h1
    _ ≤ (n + 1) * (n + 1) := h2
    _ = (0 + n + 1) * (0 + n + 1) := by ring

/-- Character::xp_for_next from src/character/mod.rs lines 204-208.  The
source computes (30.0 * (level as f64).powf(1.5)) as i32; this is modelled in
exact real arithmetic: for level ≥ 0 the value is the floor of 30 * level^1.5,
which equals the integer square root of 900 * level^3 (proved in
xp_for_next_matches_formula below); for level < 0 powf of a negative base with
a fractional exponent yields NaN and the saturating cast yields 0. -/
def xp_for_next_level (level : Int) : Int :=
  if level < 0 then 0 else (isqrt (900 * level.toNat ^ 3) : Int)

def Character.xp_for_next (c : Character) : Int :=
  xp_for_next_level c.level

/-- At any level at least 1, the next-level XP threshold is at least 30. -/
theorem xp_for_next_level_ge_30 (level : Int) (h : 1 ≤ level) :
    30 ≤ xp_for_next_level level := by
  have hn : ¬ level < 0 := by omega
  have h1 : 1 ≤ level.toNat := by omega
  have h900 : 900 ≤ 900 * level.toNat ^ 3 := by
    have : 1 ≤ level.toNat ^ 3 := Nat.one_le_pow _ _ (by omega)
    nlinarith
  have hspec := (isqrt_spec (900 * level.toNat ^ 3)).2
  have h30 : 30 ≤ isqrt (900 * level.toNat ^ 3) := by
    by_contra hlt
    push_neg at hlt
    have : (isqrt (900 * level.toNat ^ 3) + 1) * (isqrt (900 * level.toNat ^ 3) + 1) ≤ 900 := by
      nlinarith
    omega
  simp only [xp_for_next_level, if_neg hn]
  exact_mod_cast h30

/-- The while loop of Character::add_experience from src/character/mod.rs
lines 156-168, with an explicit fuel bound (the source loop is a Rust while;
add_experience_terminates shows the chosen fuel always suffices from a valid
state).  k indexes the draw stream so each increase_level call consumes fresh
randomness. -/
def add_experience_go (ds : Nat → Draws) : Nat → Nat → Character → Option (Character × Nat)
  | 0, _, c => if c.xp < c.xp_for_next then some (c, 0) else none
  | fuel + 1, k, c =>
    if c.xp < c.xp_for_next then some (c, 0)
    else
      let c1 := increase_level (ds k) c
      let c2 := { c1 with xp := c1.xp - c.xp_for_next }
      (add_experience_go ds fuel (k + 1) c2).map (fun p => (p.1, p.2 + 1))

/-- Character::add_experience from src/character/mod.rs lines 156-168: add the
amount to the accumulated xp, then repeatedly level up while xp is at least
the current threshold.  Returns the final character and the number of levels
gained, or none if the fuel bound were ever insufficient. -/
def add_experience (ds : Nat → Draws) (c : Character) (xp : Int) : Option (Character × Nat) :=
  let c0 : Character := { c with xp := c.xp + xp }
  add_experience_go ds (c0.xp.toNat + 1) 0 c0

theorem add_experience_go_spec (ds : Nat → Draws) :
    ∀ fuel k c, 1 ≤ c.level → 0 ≤ c.xp → c.xp.toNat < fuel →
      ∃ cf n, add_experience_go ds fuel k c = some (cf, n)
        ∧ cf.level = c.level + n
        ∧ 0 ≤ cf.xp
        ∧ cf.xp < cf.xp_for_next := by
  intro fuel
  induction fuel with
  | zero => intro k c _ _ hfuel; omega
  | succ fuel ih =>
    intro k c hlevel hxp hfuel
    by_cases hstop : c.xp < c.xp_for_next
    · exact ⟨c, 0, by simp [add_experience_go, hstop], by simp, hxp, hstop⟩
    · push_neg at hstop
      have hfn : 30 ≤ c.xp_for_next := xp_for_next_level_ge_30 c.level hlevel
      set c1 := increase_level (ds k) c with hc1
      set c2 : Character := { c1 with xp := c1.xp - c.xp_for_next } with hc2
      have hc2level : c2.level = c.level + 1 := by simp [hc2, hc1, increase_level]
      have hc2xp : c2.xp = c.xp - c.xp_for_next := by simp [hc2, hc1, increase_level]
      have hc2xp0 : 0 ≤ c2.xp := by omega
      have hc2lt : c2.xp.toNat < fuel := by omega
      obtain ⟨cf, n, heq, hlev, hxf0, hxflt⟩ :=
        ih (k + 1) c2 (by omega) hc2xp0 hc2lt
      refine ⟨cf, n + 1, ?_, by omega, hxf0, hxflt⟩
      simp [add_experience_go, not_lt.mpr hstop, ← hc1, ← hc2, heq]

/-- C2: from any state with level ≥ 1 and xp ≥ 0, add_experience with a
non-negative amount terminates (the fuel bound suffices), cascades level-ups
while the accumulated XP meets each successive threshold, returns the number
of level-ups performed (the level advances by exactly that count), leaves
xp < xp_for_next at the new level, and performs no level-up when the
accumulated XP is below the first threshold. -/
theorem add_experience_cascades (ds : Nat → Draws) (c : Character) (amount : Int)
    (hlevel : 1 ≤ c.level) (hxp : 0 ≤ c.xp) (hamount : 0 ≤ amount) :
    ∃ cf n, add_experience ds c amount = some (cf, n)
      ∧ cf.level = c.level + n
      ∧ 0 ≤ cf.xp
      ∧ cf.xp < cf.xp_for_next
      ∧ (c.xp + amount < xp_for_next_level c.level →
          cf = { c with xp := c.xp + amount } ∧ n = 0) := by
  set c0 : Character := { c with xp := c.xp + amount } with hc0
  have h0level : c0.level = c.level := by simp [hc0]
  have h0xp : c0.xp = c.xp + amount := by simp [hc0]
  obtain ⟨cf, n, heq, hlev, hxf0, hxflt⟩ :=
    add_experience_go_spec ds (c0.xp.toNat + 1) 0 c0 (by omega) (by omega) (by omega)
  refine ⟨cf, n, heq, by omega, hxf0, hxflt, ?_⟩
  intro hsmall
  have hstop : c0.xp < c0.xp_for_next := by
    simpa [Character.xp_for_next, h0level, h0xp] using hsmall
  have hgo : add_experience_go ds (c0.xp.toNat + 1) 0 c0 = some (c0, 0) := by
    simp [add_experience_go, hstop]
  rw [hgo] at heq
  simp only [Option.some.injEq, Prod.mk.injEq] at heq
  exact ⟨heq.1.symm, heq.2.symm⟩

theorem floor_sqrt_nat (m : ℕ) : ⌊Real.sqrt (m : ℝ)⌋ = (isqrt m : ℤ) := by
  obtain ⟨h1, h2⟩ := isqrt_spec m
  have hle : ((isqrt m : ℕ) : ℝ) ≤ Real.sqrt (m : ℝ) := by
    rw [Real.le_sqrt (by positivity) (by positivity)]
    have hsq : ((isqrt m : ℕ) : ℝ) ^ 2 = ((isqrt m * isqrt m : ℕ) : ℝ) := by push_cast; ring
    rw [hsq]
    exact_mod_cast h1
  have hlt : Real.sqrt (m : ℝ) < ((isqrt m : ℕ) : ℝ) + 1 := by
    rw [Real.sqrt_lt' (by positivity)]
    have hsq : (((isqrt m : ℕ) : ℝ) + 1) ^ 2 = (((isqrt m + 1) * (isqrt m + 1) : ℕ) : ℝ) := by
      push_cast; ring
    rw [hsq]
    exact_mod_cast h2
  rw [Int.floor_eq_iff]
  constructor
  · exact_mod_cast hle
  · push_cast
    exact_mod_cast hlt

theorem rpow_three_halves (x : ℝ) (hx : 0 ≤ x) : x ^ (1.5 : ℝ) = Real.sqrt (x ^ 3) := by
  have h : (1.5 : ℝ) = (3 : ℝ) * (1 / 2) := by norm_num
  rw [h, Real.rpow_mul hx, ← Real.sqrt_eq_rpow,
    show ((3 : ℝ)) = ((3 : ℕ) : ℝ) by norm_num, Real.rpow_natCast]

theorem thirty_rpow (n : ℕ) :
    (30 : ℝ) * (n : ℝ) ^ (1.5 : ℝ) = Real.sqrt ((900 * n ^ 3 : ℕ) : ℝ) := by
  rw [rpow_three_halves _ (by positivity)]
  have hc : ((900 * n ^ 3 : ℕ) : ℝ) = 900 * ((n : ℝ)) ^ 3 := by push_cast; ring
  rw [hc, Real.sqrt_mul (by norm_num : (0 : ℝ) ≤ 900),
    show (900 : ℝ) = 30 ^ 2 by norm_num, Real.sqrt_sq (by norm_num : (0 : ℝ) ≤ 30)]

/-- C3: for every character at level ≥ 1, xp_for_next equals the floor of
30 * level^1.5 (real exponentiation), and in particular the thresholds at
levels 1, 2, 3 are 30, 84 and 155. -/
theorem xp_for_next_matches_formula (c : Character) (h : 1 ≤ c.level) :
    c.xp_for_next = ⌊(30 : ℝ) * (c.level : ℝ) ^ (1.5 : ℝ)⌋
    ∧ xp_for_next_level 1 = 30
    ∧ xp_for_next_level 2 = 84
    ∧ xp_for_next_level 3 = 155 := by
  refine ⟨?_, by decide, by decide, by decide⟩
  have hn : ¬ c.level < 0 := by omega
  have hcast : ((c.level.toNat : ℕ) : ℝ) = (c.level : ℝ) := by
    exact_mod_cast congrArg (Int.cast : ℤ → ℝ) (Int.toNat_of_nonneg (by omega))
  simp only [Character.xp_for_next, xp_for_next_level, if_neg hn]
  rw [← hcast, thirty_rpow, floor_sqrt_nat]

/-- The test class of the Rust module tests in src/character/mod.rs (new_char):
hp Stat(25, 7), no mp, strength Stat(10, 3), speed Stat(10, 2). -/
def test_class : Class :=
  { name := "test", category := .Player, hp := ⟨25, 7⟩, mp := none,
    strength := ⟨10, 3⟩, speed := ⟨10, 2⟩, inflicts := none }

/-- A concrete level-1 character of the test class, as produced by the test
constructor with nominal stat increases. -/
def test_char : Character :=
  { cls := test_class, sword := none, shield := none, level := 1, xp := 0,
    max_hp := 25, current_hp := 25, max_mp := 0, current_mp := 0,
    strength := 10, speed := 10, status_effect := none }

/-- A draw stream that always returns the nominal stat increases of the test
class. -/
def ds0 : Nat → Draws := fun _ => ⟨3, 2, 7, 5⟩

theorem add_experience_cascades_witness :
    ∃ cf n, add_experience ds0 test_char 120 = some (cf, n)
      ∧ cf.level = test_char.level + n
      ∧ 0 ≤ cf.xp
      ∧ cf.xp < cf.xp_for_next
      ∧ (test_char.xp + 120 < xp_for_next_level test_char.level →
          cf = { test_char with xp := test_char.xp + 120 } ∧ n = 0) :=
  add_experience_cascades ds0 test_char 120 (by decide) (by decide) (by decide)

theorem xp_for_next_matches_formula_witness :
    1 ≤ test_char.level
    ∧ (test_char.xp_for_next = ⌊(30 : ℝ) * (test_char.level : ℝ) ^ (1.5 : ℝ)⌋
        ∧ xp_for_next_level 1 = 30
        ∧ xp_for_next_level 2 = 84
        ∧ xp_for_next_level 3 = 155) :=
  ⟨by decide, xp_for_next_matches_formula test_char (by decide)⟩

/-- Character::physical_attack from src/character/mod.rs lines 223-230.  Rust
integer division truncates toward zero, i.e. Int.tdiv. -/
def Character.physical_attack (c : Character) : Int :=
  if c.cls.is_magic then c.strength.tdiv 3
  else c.strength + c.sword.getD 0

/-- Character::magic_attack from src/character/mod.rs lines 232-238. -/
def Character.magic_attack (c : Character) : Int :=
  if c.cls.is_magic then c.strength * 3 else 0

/-- Character::mp_cost from src/character/mod.rs lines 245-248: one third of
the canonical mp total for the level, 0 without an mp curve. -/
def Character.mp_cost (c : Character) : Int :=
  match c.cls.mp with
  | some mp => (mp.atLevel c.level).tdiv 3
  | none => 0

/-- Character::can_magic_attack from src/character/mod.rs lines 241-243. -/
def Character.can_magic_attack (c : Character) : Bool :=
  c.cls.is_magic && decide (c.mp_cost ≤ c.current_mp)

/-- Character::deffense from src/character/mod.rs lines 250-254 (source
spelling): shield strength if equipped, else 0. -/
def Character.deffense (c : Character) : Int :=
  c.shield.getD 0

/-- Character::damage from src/character/mod.rs lines 213-221: raw damage and
mp cost from the magic or physical path, then a damage floor of 1 after
subtracting the receiver defense. -/
def Character.damage (c receiver : Character) : Int × Int :=
  let p : Int × Int :=
    if c.can_magic_attack then (c.magic_attack, c.mp_cost)
    else (c.physical_attack, 0)
  (max 1 (p.1 - receiver.deffense), p.2)

/-- C4: the damage dealt to a receiver is max(1, raw - defense) where raw is
the magic attack when the attacker can magic-attack and the physical attack
otherwise, and is therefore at least 1 however large the defense. -/
theorem damage_has_floor_one (a receiver : Character) :
    (a.damage receiver).1
      = max 1 ((if a.can_magic_attack then a.magic_attack else a.physical_attack)
          - receiver.deffense)
    ∧ 1 ≤ (a.damage receiver).1 := by
  constructor
  · by_cases h : a.can_magic_attack <;> simp [Character.damage, h]
  · by_cases h : a.can_magic_attack <;> simp [Character.damage, h]

/-- Character::heal from src/character/mod.rs lines 186-190: clamp current_hp
to max_hp and return the amount actually restored. -/
def Character.heal (c : Character) (amount : Int) : Character × Int :=
  let previous := c.current_hp
  let new_hp := min c.max_hp (c.current_hp + amount)
  ({ c with current_hp := new_hp }, new_hp - previous)

/-- Character::restore_mp from src/character/mod.rs lines 192-196. -/
def Character.restore_mp (c : Character) (amount : Int) : Character × Int :=
  let previous := c.current_mp
  let new_mp := min c.max_mp (c.current_mp + amount)
  ({ c with current_mp := new_mp }, new_mp - previous)

/-- Character::heal_full from src/character/mod.rs lines 199-201. -/
def Character.heal_full (c : Character) : Character × (Int × Int) :=
  let p1 := c.heal c.max_hp
  let p2 := p1.1.restore_mp p1.1.max_mp
  (p2.1, (p1.2, p2.2))

/-- C7 counterexample: on a character whose hp pool is already full, heal with
the (negative) amount -1 returns -1 — a negative restored amount, and not 0 —
refuting the claim for unrestricted amounts. -/
theorem heal_negative_amount_counterexample :
    test_char.current_hp = test_char.max_hp
    ∧ (test_char.heal (-1)).2 = -1
    ∧ ¬ 0 ≤ (test_char.heal (-1)).2 := by decide

/-- C7 as amended: for every character whose pools respect their maxima and
every NON-NEGATIVE amount, heal and restore_mp never push the pool above its
maximum, never return a negative restored amount, return 0 when the pool is
already full, and return exactly the difference between the pool value after
and before the call. -/
theorem heal_restore_mp_clamp (c : Character) (amount : Int)
    (hamount : 0 ≤ amount) (hhp : c.current_hp ≤ c.max_hp)
    (hmp : c.current_mp ≤ c.max_mp) :
    (c.heal amount).1.current_hp ≤ c.max_hp
    ∧ 0 ≤ (c.heal amount).2
    ∧ (c.current_hp = c.max_hp → (c.heal amount).2 = 0)
    ∧ (c.heal amount).2 = (c.heal amount).1.current_hp - c.current_hp
    ∧ (c.restore_mp amount).1.current_mp ≤ c.max_mp
    ∧ 0 ≤ (c.restore_mp amount).2
    ∧ (c.current_mp = c.max_mp → (c.restore_mp amount).2 = 0)
    ∧ (c.restore_mp amount).2 = (c.restore_mp amount).1.current_mp - c.current_mp := by
  refine ⟨?_, ?_, ?_, ?_, ?_, ?_, ?_, ?_⟩ <;>
    simp [Character.heal, Character.restore_mp] <;> omega

/-- A concrete damaged character for instantiating the healing properties. -/
def hurt_char : Character := { test_char with current_hp := 10 }

theorem heal_restore_mp_clamp_witness :
    (hurt_char.heal 5).1.current_hp ≤ hurt_char.max_hp
    ∧ 0 ≤ (hurt_char.heal 5).2
    ∧ (hurt_char.current_hp = hurt_char.max_hp → (hurt_char.heal 5).2 = 0)
    ∧ (hurt_char.heal 5).2 = (hurt_char.heal 5).1.current_hp - hurt_char.current_hp
    ∧ (hurt_char.restore_mp 5).1.current_mp ≤ hurt_char.max_mp
    ∧ 0 ≤ (hurt_char.restore_mp 5).2
    ∧ (hurt_char.current_mp = hurt_char.max_mp → (hurt_char.restore_mp 5).2 = 0)
    ∧ (hurt_char.restore_mp 5).2
        = (hurt_char.restore_mp 5).1.current_mp - hurt_char.current_mp :=
  heal_restore_mp_clamp hurt_char 5 (by decide) (by decide) (by decide)

/-- Character::receive_damage from src/character/mod.rs lines 170-178. -/
def Character.receive_damage (c : Character) (damage : Int) : Character × Except Dead Unit :=
  if c.current_hp ≤ damage then ({ c with current_hp := 0 }, Except.error Dead.mk)
  else ({ c with current_hp := c.current_hp - damage }, Except.ok ())

/-- Character::is_dead from src/character/mod.rs lines 180-182. -/
def Character.is_dead (c : Character) : Bool :=
  c.current_hp == 0

/-- C9: from a state with non-negative hp, receive_damage with a non-negative
amount leaves hp non-negative, signals Dead exactly when the damage is at
least the pre-call hp (zeroing hp in that case, subtracting otherwise), and
signals Dead exactly when is_dead holds afterwards; in particular damage 0 on
an already-dead character signals Dead again. -/
theorem receive_damage_spec (c : Character) (d : Int)
    (hhp : 0 ≤ c.current_hp) (hd : 0 ≤ d) :
    0 ≤ (c.receive_damage d).1.current_hp
    ∧ ((c.receive_damage d).2 = Except.error Dead.mk ↔ c.current_hp ≤ d)
    ∧ (c.current_hp ≤ d → (c.receive_damage d).1.current_hp = 0)
    ∧ (d < c.current_hp → (c.receive_damage d).1.current_hp = c.current_hp - d)
    ∧ ((c.receive_damage d).2 = Except.error Dead.mk
        ↔ (c.receive_damage d).1.is_dead = true) := by
  by_cases h : c.current_hp ≤ d <;>
    simp [Character.receive_damage, h, Character.is_dead] <;> omega

/-- A concrete already-dead character (current_hp = 0). -/
def dead_char : Character := { test_char with current_hp := 0 }

theorem receive_damage_spec_witness :
    0 ≤ (dead_char.receive_damage 0).1.current_hp
    ∧ ((dead_char.receive_damage 0).2 = Except.error Dead.mk ↔ dead_char.current_hp ≤ 0)
    ∧ (dead_char.current_hp ≤ 0 → (dead_char.receive_damage 0).1.current_hp = 0)
    ∧ (0 < dead_char.current_hp →
        (dead_char.receive_damage 0).1.current_hp = dead_char.current_hp - 0)
    ∧ ((dead_char.receive_damage 0).2 = Except.error Dead.mk
        ↔ (dead_char.receive_damage 0).1.is_dead = true) :=
  receive_damage_spec dead_char 0 (by decide) (by decide)

/-- Character::maybe_remove_status_effect from src/character/mod.rs lines
277-283. -/
def Character.maybe_remove_status_effect (c : Character) : Character × Bool :=
  match c.status_effect with
  | some _ => ({ c with status_effect := none }, true)
  | none => (c, false)

/-- Character::receive_status_effect_damage from src/character/mod.rs lines
286-297, with the randomizer damage jitter injected as rdamage. -/
def Character.receive_status_effect_damage (rdamage : Int → Int) (c : Character) :
    Character × Except Dead (Option Int) :=
  match c.status_effect with
  | some _ =>
    let damage := rdamage (max 1 (c.max_hp.tdiv 20))
    let p := c.receive_damage damage
    match p.2 with
    | Except.error e => (p.1, Except.error e)
    | Except.ok _ => (p.1, Except.ok (some damage))
  | none => (c, Except.ok none)

/-- Modelled from the spec: the class registry contents (classes.yaml, loaded
by src/character/class.rs, is not under src/).  The Player category holds the
classes named warrior (the first, default class), thief and mage, of which
only mage has an mp curve; every curve has a positive base exceeding its
non-negative per-level increase (spec sections 4.4, 8 and 9). -/
def warrior : Class :=
  { name := "warrior", category := .Player, hp := ⟨30, 7⟩, mp := none,
    strength := ⟨12, 3⟩, speed := ⟨11, 2⟩, inflicts := none }

/-- Modelled from the spec: the thief player class (no mp curve). -/
def thief : Class :=
  { name := "thief", category := .Player, hp := ⟨26, 6⟩, mp := none,
    strength := ⟨11, 3⟩, speed := ⟨16, 5⟩, inflicts := none }

/-- Modelled from the spec: the mage player class (magic-capable: mp curve
present, base 15 exceeding increase 5). -/
def mage : Class :=
  { name := "mage", category := .Player, hp := ⟨22, 5⟩, mp := some ⟨15, 5⟩,
    strength := ⟨11, 3⟩, speed := ⟨10, 2⟩, inflicts := none }

/-- Modelled from the spec: the ordered Player entry of the class registry. -/
def player_classes : List Class := [warrior, thief, mage]

/-- Class::player_by_name from src/character/class.rs lines 75-82: the first
Player-category class with the given name. -/
def Class.player_by_name (name : String) : Option Class :=
  (player_classes.filter (fun cl => cl.name == name)).head?

/-- Class::player_first from src/character/class.rs lines 71-73. -/
def Class.player_first : Class := warrior

/-- The for loop of Character::new: apply increase_level n times, consuming
draw batches k, k+1, ... in order. -/
def increase_levels (ds : Nat → Draws) : Nat → Nat → Character → Character
  | _, 0, c => c
  | k, n + 1, c => increase_levels ds (k + 1) n (increase_level (ds k) c)

/-- The level-0 seed state of Character::new from src/character/mod.rs lines
61-81: every pool and stat at its level-0 extrapolation base - increase (mp 0
without an mp curve), level 0, xp 0, no equipment, no status effect. -/
def level_zero_character (cls : Class) : Character :=
  { cls := cls, sword := none, shield := none, level := 0, xp := 0,
    max_hp := cls.hp.base - cls.hp.increase,
    current_hp := cls.hp.base - cls.hp.increase,
    max_mp := match cls.mp with | some mp => mp.base - mp.increase | none => 0,
    current_mp := match cls.mp with | some mp => mp.base - mp.increase | none => 0,
    strength := cls.strength.base - cls.strength.increase,
    speed := cls.speed.base - cls.speed.increase,
    status_effect := none }

/-- Character::new from src/character/mod.rs lines 61-88: seed at level 0 and
level up level times (a Rust range 0..level is empty for level ≤ 0). -/
def Character.new (ds : Nat → Draws) (cls : Class) (level : Int) : Character :=
  increase_levels ds 0 level.toNat (level_zero_character cls)

/-- Character::player from src/character/mod.rs lines 49-51. -/
def Character.player (ds : Nat → Draws) : Character :=
  Character.new ds Class.player_first 1

/-- Whether a change_class call takes the forced base-mp branch of
src/character/mod.rs lines 114-122 (switching to a magic class at level ≠ 1
while max_mp is 0). -/
def change_grants (c : Character) (name : String) : Bool :=
  !(name == c.cls.name) &&
    (match Class.player_by_name name with
     | some cl => !(c.level == 1) && cl.is_magic && (c.max_mp == 0)
     | none => false)

/-- Character::change_class from src/character/mod.rs lines 93-130.  The
same-name check comes first; a level-1 change is a full re-roll preserving
only equipment; otherwise the class reference is swapped, force-granting a
base mp pool when switching to a magic class with zero max_mp; xp resets to 0
and the prior xp is returned as lost. -/
def Character.change_class (ds : Nat → Draws) (c : Character) (name : String) :
    Character × Except ClassNotFound Int :=
  if name == c.cls.name then (c, Except.ok 0)
  else
    match Class.player_by_name name with
    | some cl =>
      let lost_xp := c.xp
      let c1 :=
        if c.level == 1 then
          let cnew := Character.new ds cl 1
          { cnew with sword := c.sword, shield := c.shield }
        else
          let c2 := { c with cls := cl }
          if cl.is_magic && (c2.max_mp == (0 : Int)) then
            match cl.mp with
            | some mp =>
              let base_mp := mp.base - mp.increase + (ds 0).mp
              { c2 with max_mp := base_mp, current_mp := base_mp }
            | none => c2
          else c2
      ({ c1 with xp := 0 }, Except.ok lost_xp)
    | none => (c, Except.error ClassNotFound.mk)

instance {ε α : Type} [DecidableEq ε] [DecidableEq α] : DecidableEq (Except ε α) := fun x y =>
  match x, y with
  | .ok a, .ok b =>
    if h : a = b then isTrue (by rw [h]) else isFalse (by intro hh; cases hh; exact h rfl)
  | .error a, .error b =>
    if h : a = b then isTrue (by rw [h]) else isFalse (by intro hh; cases hh; exact h rfl)
  | .ok _, .error _ => isFalse (by intro hh; cases hh)
  | .error _, .ok _ => isFalse (by intro hh; cases hh)

/-- A character wearing a non-Player class name, as the enemy generator
produces for shadow encounters (src/character/enemy.rs lines 8-11). -/
def shadow_char : Character :=
  { test_char with cls := { test_class with name := "shadow" } }

/-- C6 counterexample: on a character whose current class name (shadow) is not
in the Player category, change_class with that very name returns Ok(0), not
ClassNotFound — the same-name check precedes the registry lookup. -/
theorem change_class_unknown_name_counterexample :
    Class.player_by_name "shadow" = none
    ∧ (shadow_char.change_class ds0 "shadow").2 = Except.ok 0
    ∧ (shadow_char.change_class ds0 "shadow").2 ≠ Except.error ClassNotFound.mk
    ∧ (shadow_char.change_class ds0 "shadow").1 = shadow_char := by decide

/-- C6 as amended: change_class with a name that differs from the current
class name and is not a Player class returns ClassNotFound and leaves the
whole character state unchanged; change_class with the current class name
(checked first, even when that name is not a Player class) returns Ok with 0
lost XP and mutates nothing, in particular preserving the accumulated xp. -/
theorem change_class_same_or_unknown (ds : Nat → Draws) (c : Character) (name : String) :
    (name = c.cls.name → c.change_class ds name = (c, Except.ok 0))
    ∧ (name ≠ c.cls.name → Class.player_by_name name = none →
        c.change_class ds name = (c, Except.error ClassNotFound.mk)) := by
  constructor
  · intro h
    simp [Character.change_class, h]
  · intro h hnone
    simp [Character.change_class, h, hnone]

theorem change_class_same_or_unknown_witness :
    test_char.change_class ds0 "test" = (test_char, Except.ok 0)
    ∧ test_char.change_class ds0 "choripan" = (test_char, Except.error ClassNotFound.mk) :=
  ⟨(change_class_same_or_unknown ds0 test_char "test").1 (by decide),
   (change_class_same_or_unknown ds0 test_char "choripan").2 (by decide) (by decide)⟩

theorem increase_levels_level (ds : Nat → Draws) :
    ∀ n k c, (increase_levels ds k n c).level = c.level + n := by
  intro n
  induction n with
  | zero => intro k c; simp [increase_levels]
  | succ n ih =>
    intro k c
    show (increase_levels ds (k + 1) n (increase_level (ds k) c)).level = c.level + (n + 1 : ℕ)
    rw [ih]
    have hl : (increase_level (ds k) c).level = c.level + 1 := rfl
    rw [hl]
    push_cast
    ring

theorem increase_levels_snoc (ds : Nat → Draws) :
    ∀ n k c, increase_levels ds k (n + 1) c
      = increase_level (ds (k + n)) (increase_levels ds k n c) := by
  intro n
  induction n with
  | zero => intro k c; simp [increase_levels]
  | succ n ih =>
    intro k c
    show increase_levels ds (k + 1) (n + 1) (increase_level (ds k) c)
      = increase_level (ds (k + (n + 1))) (increase_levels ds k (n + 1) c)
    rw [ih, show k + (n + 1) = k + 1 + n by ring]
    rfl

/-- C10: Character::new seeds every pool and stat at the level-0 extrapolation
base - increase (mp 0 without an mp curve) and applies the level-up transition
exactly max(target_level, 0) times; for any target_level ≤ 0 it therefore
returns the bare level-0 character — below the documented level ≥ 1 lower
bound — with xp 0, no equipment and no status effect. -/
theorem new_applies_level_transitions (ds : Nat → Draws) (cls : Class) (level : Int) :
    Character.new ds cls level
      = increase_levels ds 0 (max level 0).toNat (level_zero_character cls)
    ∧ (Character.new ds cls level).level = max level 0
    ∧ (0 ≤ level →
        Character.new ds cls (level + 1)
          = increase_level (ds level.toNat) (Character.new ds cls level))
    ∧ (level ≤ 0 →
        Character.new ds cls level
          = { cls := cls, sword := none, shield := none, level := 0, xp := 0,
              max_hp := cls.hp.base - cls.hp.increase,
              current_hp := cls.hp.base - cls.hp.increase,
              max_mp := match cls.mp with | some mp => mp.base - mp.increase | none => 0,
              current_mp := match cls.mp with | some mp => mp.base - mp.increase | none => 0,
              strength := cls.strength.base - cls.strength.increase,
              speed := cls.speed.base - cls.speed.increase,
              status_effect := none }) := by
  refine ⟨?_, ?_, ?_, ?_⟩
  · have h : (max level 0).toNat = level.toNat := by omega
    rw [Character.new, h]
  · rw [Character.new, increase_levels_level]
    simp only [level_zero_character]
    omega
  · intro h
    have ht : (level + 1).toNat = level.toNat + 1 := by omega
    rw [Character.new, ht, increase_levels_snoc]
    simp [Character.new]
  · intro h
    have ht : level.toNat = 0 := by omega
    rw [Character.new, ht]
    rfl

theorem new_applies_level_transitions_witness :
    (Character.new ds0 test_class (-2)).level = max (-2) 0
    ∧ Character.new ds0 test_class (-2)
        = { cls := test_class, sword := none, shield := none, level := 0, xp := 0,
            max_hp := test_class.hp.base - test_class.hp.increase,
            current_hp := test_class.hp.base - test_class.hp.increase,
            max_mp := match test_class.mp with | some mp => mp.base - mp.increase | none => 0,
            current_mp := match test_class.mp with | some mp => mp.base - mp.increase | none => 0,
            strength := test_class.strength.base - test_class.strength.increase,
            speed := test_class.speed.base - test_class.speed.increase,
            status_effect := none }
    ∧ Character.new ds0 test_class (0 + 1)
        = increase_level (ds0 (0 : Int).toNat) (Character.new ds0 test_class 0) :=
  ⟨(new_applies_level_transitions ds0 test_class (-2)).2.1,
   (new_applies_level_transitions ds0 test_class (-2)).2.2.2 (by decide),
   (new_applies_level_transitions ds0 test_class 0).2.2.1 (by decide)⟩

/-- The level function from src/character/enemy.rs lines 29-32, with the
randomness service's enemy_level jitter injected.  Rust i32 division
truncates toward zero (Int.tdiv). -/
def enemy_level (enemy_level_jitter : Int → Int) (player_level distance_from_home : Int) : Int :=
  enemy_level_jitter (max (player_level.tdiv 2 + distance_from_home - 1) 1)

/-- C8: the level handed to the enemy-level jitter for a normal encounter is
max(player_level / 2 + depth - 1, 1) with truncating division; with the
identity jitter the generated target level is exactly that expression, which
reproduces the test vectors of the source module. -/
theorem enemy_level_formula (jit : Int → Int) (player_level distance : Int) :
    enemy_level jit player_level distance
      = jit (max (player_level.tdiv 2 + distance - 1) 1)
    ∧ enemy_level id player_level distance
      = max (player_level.tdiv 2 + distance - 1) 1
    ∧ enemy_level id 1 1 = 1 ∧ enemy_level id 1 3 = 2
    ∧ enemy_level id 5 2 = 3 ∧ enemy_level id 10 3 = 7 :=
  ⟨rfl, rfl, by decide, by decide, by decide, by decide⟩

/-- The states reachable from the public constructor (on a registry class,
with non-negative stat draws) by the public Character operations: experience
gain, class change, combat damage, healing, status assignment and status
ticks.  The Bool index records whether a forced base-mp grant (the branch of
change_class at src/character/mod.rs lines 114-122) has ever fired. -/
inductive Reach : Character → Bool → Prop where
  | new (ds : Nat → Draws) (cls : Class) (level : Int)
      (hcls : cls ∈ player_classes) (hds : OracleNonneg ds) :
      Reach (Character.new ds cls level) false
  | add_exp {c : Character} {g : Bool} (ds : Nat → Draws) (amount : Int)
      {cf : Character} {n : Nat}
      (h : Reach c g) (hds : OracleNonneg ds)
      (heq : add_experience ds c amount = some (cf, n)) :
      Reach cf g
  | change {c : Character} {g : Bool} (ds : Nat → Draws) (name : String)
      {cf : Character} {r : Except ClassNotFound Int}
      (h : Reach c g) (hds : OracleNonneg ds)
      (heq : c.change_class ds name = (cf, r)) :
      Reach cf (g || change_grants c name)
  | receive {c : Character} {g : Bool} (d : Int) (h : Reach c g) :
      Reach (c.receive_damage d).1 g
  | heal {c : Character} {g : Bool} (amount : Int) (h : Reach c g) :
      Reach (c.heal amount).1 g
  | restore {c : Character} {g : Bool} (amount : Int) (h : Reach c g) :
      Reach (c.restore_mp amount).1 g
  | full {c : Character} {g : Bool} (h : Reach c g) :
      Reach c.heal_full.1 g
  | set_status {c : Character} {g : Bool} (s : Option StatusEffect) (h : Reach c g) :
      Reach { c with status_effect := s } g
  | cure {c : Character} {g : Bool} (h : Reach c g) :
      Reach c.maybe_remove_status_effect.1 g
  | tick {c : Character} {g : Bool} (rdamage : Int → Int) (h : Reach c g) :
      Reach (Character.receive_status_effect_damage rdamage c).1 g

/-- The mp-pool invariant maintained by every reachable state: max_mp is
non-negative, and strictly positive whenever the current class is magic. -/
def MpInv (c : Character) : Prop :=
  0 ≤ c.max_mp ∧ (c.cls.is_magic = true → 0 < c.max_mp)

/-- The well-formedness the spec requires of configured mp curves (sections 8
and 9): a non-negative increase strictly below the base. -/
def class_mp_ok (cl : Class) : Prop :=
  ∀ mp ∈ cl.mp, 0 ≤ mp.increase ∧ mp.increase < mp.base

theorem player_classes_mp_ok : ∀ cl ∈ player_classes, class_mp_ok cl := by
  intro cl hcl mp hmp
  fin_cases hcl
  · simp [warrior, Option.mem_def] at hmp
  · simp [thief, Option.mem_def] at hmp
  · rw [Option.mem_def] at hmp
    simp only [mage, Option.some.injEq] at hmp
    subst hmp
    exact ⟨by decide, by decide⟩

theorem player_by_name_mem {name : String} {cl : Class}
    (h : Class.player_by_name name = some cl) : cl ∈ player_classes := by
  unfold Class.player_by_name at h
  cases hf : player_classes.filter (fun x => x.name == name) with
  | nil => rw [hf] at h; simp at h
  | cons a t =>
    rw [hf] at h
    have hmem : a ∈ player_classes.filter (fun x => x.name == name) := by
      rw [hf]; exact List.mem_cons_self _ _
    have ha := (List.mem_filter.mp hmem).1
    simp only [List.head?] at h
    injection h with h
    exact h ▸ ha

theorem increase_level_mpinv {d : Draws} {c : Character}
    (hd : 0 ≤ d.mp) (h : MpInv c) : MpInv (increase_level d c) := by
  have hmono : c.max_mp ≤ (increase_level d c).max_mp := by
    simp only [increase_level]
    cases hc : c.cls.mp <;> simp [hc] <;> omega
  exact ⟨le_trans h.1 hmono, fun hm => lt_of_lt_of_le (h.2 hm) hmono⟩

theorem increase_levels_mpinv (ds : Nat → Draws) (hds : OracleNonneg ds) :
    ∀ n k c, MpInv c → MpInv (increase_levels ds k n c) := by
  intro n
  induction n with
  | zero => intro k c h; exact h
  | succ n ih =>
    intro k c h
    exact ih (k + 1) _ (increase_level_mpinv (hds k).2.2.2 h)

theorem mpinv_new (ds : Nat → Draws) (cls : Class) (level : Int)
    (hds : OracleNonneg ds) (hcl : class_mp_ok cls) :
    MpInv (Character.new ds cls level) := by
  refine increase_levels_mpinv ds hds _ _ _ ?_
  constructor
  · simp only [level_zero_character]
    cases hc : cls.mp with
    | none => simp
    | some mp =>
      have := hcl mp (Option.mem_def.mpr hc)
      simp
      omega
  · intro hm
    simp only [level_zero_character] at hm ⊢
    simp only [Class.is_magic, Option.isSome_iff_exists] at hm
    obtain ⟨mp, hmp⟩ := hm
    have := hcl mp (Option.mem_def.mpr hmp)
    simp [hmp]
    omega

theorem add_experience_go_mpinv (ds : Nat → Draws) (hds : OracleNonneg ds) :
    ∀ fuel k c cf n, MpInv c →
      add_experience_go ds fuel k c = some (cf, n) → MpInv cf := by
  intro fuel
  induction fuel with
  | zero =>
    intro k c cf n h heq
    simp only [add_experience_go] at heq
    split at heq
    · cases heq; exact h
    · cases heq
  | succ fuel ih =>
    intro k c cf n h heq
    simp only [add_experience_go] at heq
    split at heq
    · cases heq; exact h
    · rw [Option.map_eq_some'] at heq
      obtain ⟨p, hp, hpe⟩ := heq
      cases hpe
      refine ih (k + 1) _ _ _ ?_ hp
      have h1 : MpInv (increase_level (ds k) c) := increase_level_mpinv (hds k).2.2.2 h
      exact ⟨h1.1, h1.2⟩

theorem add_experience_mpinv {ds : Nat → Draws} {c cf : Character} {amount : Int} {n : Nat}
    (hds : OracleNonneg ds) (h : MpInv c)
    (heq : add_experience ds c amount = some (cf, n)) : MpInv cf := by
  refine add_experience_go_mpinv ds hds _ 0 _ cf n ?_ heq
  exact ⟨h.1, h.2⟩

theorem mpinv_change_class {ds : Nat → Draws} {c : Character} {name : String}
    {cf : Character} {r : Except ClassNotFound Int}
    (hds : OracleNonneg ds) (h : MpInv c)
    (heq : c.change_class ds name = (cf, r)) : MpInv cf := by
  unfold Character.change_class at heq
  by_cases hname : (name == c.cls.name) = true
  · rw [if_pos hname] at heq
    cases heq
    exact h
  · rw [if_neg hname] at heq
    cases hcl : Class.player_by_name name with
    | none => rw [hcl] at heq; cases heq; exact h
    | some cl =>
      rw [hcl] at heq
      have hclok : class_mp_ok cl := player_classes_mp_ok cl (player_by_name_mem hcl)
      simp only at heq
      by_cases hlev : (c.level == (1 : Int)) = true
      · rw [if_pos hlev] at heq
        cases heq
        have hnew := mpinv_new ds cl 1 hds hclok
        exact ⟨hnew.1, hnew.2⟩
      · rw [if_neg hlev] at heq
        by_cases hcond : (cl.is_magic && (c.max_mp == (0 : Int))) = true
        · rw [if_pos hcond] at heq
          rw [Bool.and_eq_true] at hcond
          cases hmp : cl.mp with
          | none =>
            exfalso
            rw [Class.is_magic, hmp] at hcond
            simp at hcond
          | some mp =>
            rw [hmp] at heq
            cases heq
            obtain ⟨hinc0, hincb⟩ := hclok mp (Option.mem_def.mpr hmp)
            have hdmp : 0 ≤ (ds 0).mp := (hds 0).2.2.2
            exact ⟨by simp; omega, fun _ => by simp; omega⟩
        · rw [if_neg hcond] at heq
          cases heq
          refine ⟨h.1, ?_⟩
          intro hmagic
          have hne : ¬ (c.max_mp == (0 : Int)) = true := by
            intro hz
            exact hcond (by simp_all)
          have : c.max_mp ≠ 0 := by simpa using hne
          have h0 := h.1
          simp only []
          omega

theorem receive_damage_keeps_mp (c : Character) (d : Int) :
    (c.receive_damage d).1.max_mp = c.max_mp ∧ (c.receive_damage d).1.cls = c.cls := by
  unfold Character.receive_damage
  split <;> exact ⟨rfl, rfl⟩

theorem tick_keeps_mp (rd : Int → Int) (c : Character) :
    (Character.receive_status_effect_damage rd c).1.max_mp = c.max_mp
    ∧ (Character.receive_status_effect_damage rd c).1.cls = c.cls := by
  unfold Character.receive_status_effect_damage
  cases hs : c.status_effect with
  | none => exact ⟨rfl, rfl⟩
  | some s =>
    simp only
    have h := receive_damage_keeps_mp c (rd (max 1 (c.max_hp.tdiv 20)))
    split <;> exact h

theorem cure_keeps_mp (c : Character) :
    c.maybe_remove_status_effect.1.max_mp = c.max_mp
    ∧ c.maybe_remove_status_effect.1.cls = c.cls := by
  unfold Character.maybe_remove_status_effect
  split <;> exact ⟨rfl, rfl⟩

theorem mpinv_of_same_fields {a b : Character}
    (hmp : a.max_mp = b.max_mp) (hcls : a.cls = b.cls) (h : MpInv b) : MpInv a := by
  refine ⟨hmp ▸ h.1, ?_⟩
  intro hm
  rw [hmp]
  exact h.2 (hcls ▸ hm)

/-- Every reachable state satisfies the mp-pool invariant. -/
theorem mpinv_reach : ∀ {c : Character} {g : Bool}, Reach c g → MpInv c := by
  intro c g h
  induction h with
  | new ds cls level hcls hds =>
    exact mpinv_new ds cls level hds (player_classes_mp_ok cls hcls)
  | add_exp ds amount h hds heq ih => exact add_experience_mpinv hds ih heq
  | change ds name h hds heq ih => exact mpinv_change_class hds ih heq
  | receive d h ih =>
    exact mpinv_of_same_fields (receive_damage_keeps_mp _ d).1 (receive_damage_keeps_mp _ d).2 ih
  | heal amount h ih => exact mpinv_of_same_fields rfl rfl ih
  | restore amount h ih => exact mpinv_of_same_fields rfl rfl ih
  | full h ih => exact mpinv_of_same_fields rfl rfl ih
  | set_status s h ih => exact mpinv_of_same_fields rfl rfl ih
  | cure h ih =>
    exact mpinv_of_same_fields (cure_keeps_mp _).1 (cure_keeps_mp _).2 ih
  | tick rdamage h ih =>
    exact mpinv_of_same_fields (tick_keeps_mp rdamage _).1 (tick_keeps_mp rdamage _).2 ih

theorem ds0_nonneg : OracleNonneg ds0 := by
  intro k
  show Draws.Nonneg ⟨3, 2, 7, 5⟩
  decide

/-- The level-2 mage obtained from Character::new(mage, 1) followed by
add_experience(30) under the nominal draw stream ds0. -/
def mage_level2 : Character :=
  { cls := mage, sword := none, shield := none, level := 2, xp := 0,
    max_hp := 31, current_hp := 31, max_mp := 20, current_mp := 20,
    strength := 14, speed := 12, status_effect := none }

/-- The state after change_class("warrior") on mage_level2: a warrior (no mp
curve) that retains the 20 max_mp accumulated as a mage. -/
def warrior_with_mp : Character :=
  { mage_level2 with cls := warrior }

/-- C5 counterexample: a mage constructed at level 1, levelled to 2 through
add_experience, then class-changed to warrior is reachable with the forced
base-mp grant flag still false, its class has no mp curve, and yet its max_mp
is 20, not 0 — refuting the claimed equivalence. -/
theorem max_mp_zero_iff_counterexample :
    ¬ (∀ (c : Character) (g : Bool), Reach c g →
        (c.max_mp = 0 ↔ (c.cls.mp = none ∧ g = false))) := by
  intro hclaim
  have h0 : Reach (Character.new ds0 mage 1) false :=
    Reach.new ds0 mage 1 (by decide) ds0_nonneg
  have h1 : Reach mage_level2 false :=
    Reach.add_exp (n := 1) ds0 30 h0 ds0_nonneg (by decide)
  have h2 : Reach warrior_with_mp (false || change_grants mage_level2 "warrior") :=
    Reach.change (r := Except.ok 0) ds0 "warrior" h1 ds0_nonneg (by decide)
  have hflag : (false || change_grants mage_level2 "warrior") = false := by decide
  rw [hflag] at h2
  have hzero := (hclaim warrior_with_mp false h2).mpr ⟨by decide, rfl⟩
  exact absurd hzero (by decide)

/-- C5 as amended: along every state reachable from the public constructor by
the public operations, max_mp = 0 implies the current class has no mp curve
(equivalently, a magic class always has a positive mp pool, the forced
base-mp grant restoring one on any class change into magic).  The converse
direction of the original claim is false: mp accumulated under an earlier
magic class is retained across a class change to a non-magic class at level
above 1, with no forced grant involved (see the counterexample). -/
theorem max_mp_zero_within_reach (c : Character) (g : Bool) (h : Reach c g) :
    c.max_mp = 0 → c.cls.mp = none := by
  intro h0
  have hinv := mpinv_reach h
  by_contra hmp
  have hmagic : c.cls.is_magic = true := by
    simp [Class.is_magic, Option.isSome_iff_ne_none, hmp]
  have := hinv.2 hmagic
  omega

theorem max_mp_zero_within_reach_witness :
    (Character.new ds0 warrior 1).cls.mp = none :=
  max_mp_zero_within_reach (Character.new ds0 warrior 1) false
    (Reach.new ds0 warrior 1 (by decide) ds0_nonneg) (by decide)

end Rpg
